import Mathlib

/-!
# Verification of the reactive-js reactivity core

Shallow embedding of the reactivity engine of this repository (the
`track`/`trigger` substrate, `effect`, the batching scheduler, `ref`,
`computed`, `watch`, `effectScope`) together with proofs of the spec's
claims about it.  Each definition embeds the JavaScript function of the
same name from the core source file; line numbers in the doc comments
refer to that file.
-/

namespace ReactiveJS

/-! ## Computed over a single ref (claims about laziness and freshness)

Embeds `ref` (set trap, with the identity no-op elision for non-array
values) and `computed` (dirty flag, cache, sync notifier, lazy recompute
on read).  The single tracked dependency is a ref holding an `Int`; the
computed's getter is an arbitrary function `g : Int → Int`.  The
computed's notifier is the only subscriber of the ref, so a write that
is not elided runs the notifier synchronously; the notifier marks the
computed dirty and (a no-op here, since the computed has no readers of
its own) triggers the computed's subscriber set.  The getter-invocation
count `calls` instruments every run of the getter.
-/

namespace Computed

structure CState where
  x : Int
  cached : Int
  dirty : Bool
  stopped : Bool
  calls : Nat
  deriving DecidableEq, Repr

/-- The body of `computedNotifier`: when a dependency changes, if the
notifier is not stopped and the computed is not already dirty, mark it
dirty (and notify the computed's own readers, none here). -/
def notifierRun (s : CState) : CState :=
  if s.stopped then s
  else if s.dirty then s
  else { s with dirty := true }

/-- `recompute`: run the getter over the current dependency state,
cache the result, clear `dirty`.  `calls` counts getter invocations. -/
def recompute (g : Int → Int) (s : CState) : CState :=
  { s with cached := g s.x, calls := s.calls + 1, dirty := false }

/-- Construction of `computed(getter)`: `dirty` starts true and the
initial `recompute()` runs the getter once to discover dependencies. -/
def mkComputed (g : Int → Int) (x0 : Int) : CState :=
  recompute g { x := x0, cached := 0, dirty := true, stopped := false, calls := 0 }

/-- The ref's `value` set trap: skip the trigger when the written value
is referentially identical to the stored one (non-array values), else
store and trigger the subscribers — here the computed's sync notifier. -/
def writeX (s : CState) (v : Int) : CState :=
  if s.x = v then s
  else notifierRun { s with x := v }

/-- The computed's `value` get trap: if dirty and the notifier is not
stopped, recompute now; then return the cache.  (The `track` call hits
an empty reader set here.) -/
def readValue (g : Int → Int) (s : CState) : Int × CState :=
  let s' := if s.dirty && !s.stopped then recompute g s else s
  (s'.cached, s')

/-- A sequence of writes to the tracked ref. -/
def writeSeq (s : CState) (vs : List Int) : CState :=
  vs.foldl writeX s

/-- All writes in `vs` are elided as identity no-op writes: every
written value equals the initially stored one (the stored value never
changes while writes are elided). -/
def allElided (x : Int) (vs : List Int) : Bool :=
  vs.all (fun v => v = x)

/-- Operations a client can perform on the ref/computed pair. -/
inductive Op where
  | write (v : Int)
  | read
  deriving DecidableEq, Repr

def applyOp (g : Int → Int) (s : CState) : Op → CState
  | .write v => writeX s v
  | .read => (readValue g s).2

def runOps (g : Int → Int) (s : CState) (ops : List Op) : CState :=
  ops.foldl (applyOp g) s

/-- The computed cache invariant: the notifier is live and, whenever the
computed is not dirty, the cache holds the getter's result over the
current dependency state. -/
def Inv (g : Int → Int) (s : CState) : Prop :=
  s.stopped = false ∧ (s.dirty = false → s.cached = g s.x)

end Computed

/-! ## The batching scheduler (queueEffect / flushEffectQueue / trigger)

Embeds the module-wide effect queue (a `Set`, modelled as a
duplicate-free list in insertion order), the `isFlushing` and
`isFlushPending` flags, `queueEffect`, the capped flush loop of
`flushEffectQueue`, and `trigger`'s sync/async fan-out.  Effects are
identified by numbers; what running an effect does to the state — user
code is arbitrary — is a parameter `run`, and the `stopped` property of
an effect is read through the parameter `stopFlag` (it is mutable state
in the source). -/

namespace Sched

structure St (σ : Type) where
  queue : List Nat
  isFlushPending : Bool
  isFlushing : Bool
  world : σ

def MAX_FLUSH_ITERATIONS : Nat := 100

/-- The message of the error thrown when the flush loop exceeds its
iteration cap (the source interpolates the cap into the text). -/
def flushLoopErrorMsg : String :=
  "[reactive] Possible infinite reactive loop detected: effect queue was still non-empty after 100 flush iterations."

/-- `queueEffect`: insertion into the `Set` is a no-op for an effect
already queued; on insertion, if no flush is running or pending, a
microtask running `flushEffectQueue` is scheduled (modelled by the
`isFlushPending` flag; the microtask turn itself is the later call of
`flushEffectQueue`). -/
def queueEffect {σ : Type} (s : St σ) (e : Nat) : St σ :=
  if e ∈ s.queue then s
  else
    let s1 : St σ := { s with queue := s.queue ++ [e] }
    if !s1.isFlushing && !s1.isFlushPending then { s1 with isFlushPending := true }
    else s1

/-- One pass of the flush loop body: snapshot the queue, clear it, then
run every member whose `stopped` flag is not set (running an effect may
re-enter the queue through `trigger`). -/
def flushPass {σ : Type} (run : Nat → St σ → St σ) (stopFlag : Nat → St σ → Bool)
    (s : St σ) : St σ :=
  let effects := s.queue
  let s1 : St σ := { s with queue := [] }
  effects.foldl (fun acc e => if stopFlag e acc then acc else run e acc) s1

/-- The `while` loop of `flushEffectQueue`.  The source counts
iterations upward and throws once `++iterations > MAX_FLUSH_ITERATIONS`
after clearing the queue; here `r` is the remaining iteration budget
(`MAX_FLUSH_ITERATIONS` minus the number of passes already executed),
so `r = 0` with a non-empty queue is exactly the over-cap condition. -/
def flushLoopAux {σ : Type} (run : Nat → St σ → St σ) (stopFlag : Nat → St σ → Bool)
    (r : Nat) (s : St σ) : St σ × Option String :=
  if s.queue = [] then (s, none)
  else
    match r with
    | 0 => ({ s with queue := [] }, some flushLoopErrorMsg)
    | r' + 1 => flushLoopAux run stopFlag r' (flushPass run stopFlag s)

/-- `flushEffectQueue`: clear `isFlushPending`, set `isFlushing`, run
the capped loop, and in a `finally` clear `isFlushing` whether the loop
exited normally or threw the loop-guard error (carried in the second
component). -/
def flushEffectQueue {σ : Type} (run : Nat → St σ → St σ)
    (stopFlag : Nat → St σ → Bool) (s : St σ) : St σ × Option String :=
  let s1 : St σ := { s with isFlushPending := false, isFlushing := true }
  let r := flushLoopAux run stopFlag MAX_FLUSH_ITERATIONS s1
  ({ r.1 with isFlushing := false }, r.2)

/-- `trigger`: snapshot the subscriber set, separate sync and async
effects, run the non-stopped sync ones immediately, queue the async
ones for batching. -/
def trigger {σ : Type} (run : Nat → St σ → St σ) (stopFlag : Nat → St σ → Bool)
    (effSync : Nat → Bool) (subscribers : List Nat) (s : St σ) : St σ :=
  let toRun := subscribers
  let syncEffects := toRun.filter (fun e => effSync e)
  let asyncEffects := toRun.filter (fun e => !effSync e)
  let s1 := syncEffects.foldl (fun acc e => if stopFlag e acc then acc else run e acc) s
  asyncEffects.foldl (fun acc e => queueEffect acc e) s1

end Sched

/-! ## One async effect observing one ref (batching scenario)

Instantiates the scheduler with a world holding a single ref (value,
subscriber set, with the identity no-op write elision of the ref set
trap) and a single non-sync effect, number `0`, whose body reads
`x.value` — so each run performs the effect's `cleanup` and re-tracks
the ref's subscriber set, and increments a run counter. -/

namespace Batch

open Sched

structure BWorld where
  xval : Int
  subs : List Nat
  deps : List Nat
  runs : Nat
  deriving DecidableEq, Repr

/-- Effect 0 was created with `sync: false`. -/
def effSync : Nat → Bool := fun _ => false

/-- Effect 0 is never stopped in this scenario. -/
def effStopped : Nat → St BWorld → Bool := fun _ _ => false

/-- The body of effect 0 (`wrappedEffect` around `() => x.value`):
`cleanup` removes the effect from every dependency set recorded on the
previous run and clears `deps`; the read of `x.value` then calls
`track`, re-adding the effect to the ref's subscriber set; the run
counter instruments the run. -/
def runEff (_e : Nat) (s : St BWorld) : St BWorld :=
  let w := s.world
  let w1 : BWorld :=
    { w with
      subs := if 0 ∈ w.deps then w.subs.filter (fun i => i ≠ 0) else w.subs
      deps := [] }
  let w2 : BWorld :=
    if 0 ∈ w1.subs then w1
    else { w1 with subs := w1.subs ++ [0], deps := w1.deps ++ [0] }
  { s with world := { w2 with runs := w2.runs + 1 } }

/-- The ref's `value` set trap in this world: elide the trigger when
the written value is referentially identical to the stored one,
otherwise store and trigger the ref's subscriber set. -/
def writeRefX (s : St BWorld) (v : Int) : St BWorld :=
  if s.world.xval = v then s
  else
    let s1 : St BWorld := { s with world := { s.world with xval := v } }
    trigger runEff effStopped effSync s1.world.subs s1

/-- Initial state: effect 0 has run once at creation (it is subscribed
to the ref and its `deps` records the subscription); the queue is
empty, no flush is pending. -/
def initB (x0 : Int) (r0 : Nat) : St BWorld :=
  { queue := []
    isFlushPending := false
    isFlushing := false
    world := { xval := x0, subs := [0], deps := [0], runs := r0 } }

/-- The state reached after a non-elided write while the flush is still
pending: effect 0 sits in the queue, a microtask flush is scheduled. -/
def QB (v : Int) (r0 : Nat) : St BWorld :=
  { queue := [0]
    isFlushPending := true
    isFlushing := false
    world := { xval := v, subs := [0], deps := [0], runs := r0 } }

end Batch

/-! ## Lifecycle of a single effect (stop semantics, dependency pruning)

Embeds `cleanup`, `track`, the `wrappedEffect` body, `wrapped.stop`,
`trigger` over a single ref's subscriber set, and the flush-loop body,
for a world containing one effect (number `0`) and any number of
dependency sets indexed by `Nat`.  Because only one effect exists,
membership of the effect in dependency set `d` is the boolean
`sets d`, and its membership in the scheduler queue is the boolean
`queue`.  Which dependency sets a run of the effect's function reads is
a parameter `reads` (user code may read different cells on different
runs, possibly depending on state); set `0` is the ref's subscriber
set.  `runs` counts executions of the effect's function. -/

namespace Eff

structure ES where
  sets : Nat → Bool
  deps : List Nat
  queue : Bool
  stopped : Bool
  runs : Nat
  xval : Int

/-- `cleanup(effect)`: remove the effect from every dependency set it
subscribed to on its last run, then clear its `deps` list. -/
def cleanup (s : ES) : ES :=
  { s with sets := fun d => if d ∈ s.deps then false else s.sets d, deps := [] }

/-- `track(subscribers)` with the effect active: if the set does not
already contain the effect, add it and push the set onto the effect's
`deps`. -/
def track (s : ES) (d : Nat) : ES :=
  if s.sets d then s
  else { s with sets := fun e => if e = d then true else s.sets e, deps := s.deps ++ [d] }

/-- The `wrappedEffect` body: a stopped effect returns immediately;
otherwise `cleanup` runs, the user function executes — reading (and
therefore tracking) the dependency sets `reads` selects — and the run
counter increments. -/
def runBody (reads : ES → List Nat) (s : ES) : ES :=
  if s.stopped then s
  else
    let s1 := cleanup s
    let s2 := (reads s1).foldl track s1
    { s2 with runs := s2.runs + 1 }

/-- `queueEffect` for the single effect: a no-op when already queued. -/
def queueEffect0 (s : ES) : ES :=
  if s.queue then s else { s with queue := true }

/-- `trigger` over the ref's subscriber set (set `0`): snapshot the
set; a sync subscriber runs immediately unless stopped, an async one is
queued (the async path has no stopped check in the source; the check
happens at flush time). -/
def triggerRef (reads : ES → List Nat) (sync : Bool) (s : ES) : ES :=
  if s.sets 0 then
    (if sync then (if s.stopped then s else runBody reads s) else queueEffect0 s)
  else s

/-- The ref's `value` set trap: elide when the written value is
referentially identical to the stored one, else store and trigger. -/
def writeRef (reads : ES → List Nat) (sync : Bool) (s : ES) (v : Int) : ES :=
  if s.xval = v then s
  else triggerRef reads sync { s with xval := v }

/-- One iteration of the flush loop body: snapshot the queue, clear it,
run the queued effect if it is not stopped. -/
def flushPassE (reads : ES → List Nat) (s : ES) : ES :=
  let hadQueued := s.queue
  let s1 := { s with queue := false }
  if hadQueued then (if s1.stopped then s1 else runBody reads s1) else s1

/-- `wrapped.stop()`: a second call is a no-op; the first call runs
`cleanup`, deletes the effect from the scheduler queue and sets the
terminal `stopped` flag. -/
def stopEffect (s : ES) : ES :=
  if s.stopped then s
  else { (cleanup s) with queue := false, stopped := true }

/-- Everything a client or the runtime can do around the effect. -/
inductive EOp where
  | write (v : Int)
  | invoke
  | flushPass
  | stop

def applyEOp (reads : ES → List Nat) (sync : Bool) (s : ES) : EOp → ES
  | .write v => writeRef reads sync s v
  | .invoke => runBody reads s
  | .flushPass => flushPassE reads s
  | .stop => stopEffect s

def runEOps (reads : ES → List Nat) (sync : Bool) (s : ES) (ops : List EOp) : ES :=
  ops.foldl (applyEOp reads sync) s

/-- The structural invariant `effect()` maintains: `deps` is a correct
reverse index (the effect is only a member of sets recorded in `deps`),
and a stopped effect is fully cleaned (member of no set, not queued). -/
def WF (s : ES) : Prop :=
  (∀ d, s.sets d = true → d ∈ s.deps) ∧
  (s.stopped = true → (∀ d, s.sets d = false) ∧ s.queue = false)

/-- State of the effect after `stop()`: terminal flag set, member of no
dependency set, not queued. -/
def Stopped0 (s : ES) : Prop :=
  s.stopped = true ∧ (∀ d, s.sets d = false) ∧ s.queue = false

/-- A read list that always reads the ref (set `0`), the plain
`effect(() => x.value)` shape. -/
def readsRef : ES → List Nat := fun _ => [0]

/-- A concrete live effect state for witnesses: subscribed to the ref's
subscriber set, recorded in `deps`, currently queued for a flush. -/
def sampleLive : ES :=
  { sets := fun d => d == 0
    deps := [0]
    queue := true
    stopped := false
    runs := 3
    xval := 7 }

/-- A freshly created effect before its first run: member of no set,
empty `deps`, not queued, not stopped. -/
def freshES : ES :=
  { sets := fun _ => false
    deps := []
    queue := false
    stopped := false
    runs := 0
    xval := 0 }

/-- An effect function that reads dependency set `a` on its first run
and only dependency set `b` on later runs (a conditional dependency). -/
def readsSwitch (a b : Nat) : ES → List Nat :=
  fun t => if t.runs = 0 then [a] else [b]

end Eff

/-! ## Effect scopes (registration of effects and disposal callbacks)

Embeds the `activeScope` guard of `effect()` and `onScopeDispose`: a
new effect or disposal callback is pushed into the currently active
scope's `effects` list only when an active scope exists and its
`stopped` flag is not set; `effect()` then invokes the wrapped effect
once regardless of registration.  Registered items are identified by
numbers. -/

namespace Scope

structure EffectScope where
  effects : List Nat
  children : List Nat
  stopped : Bool
  deriving DecidableEq, Repr

/-- `EffectScope.add`: push an effect (or a disposal wrapper) into the
scope's `effects` list. -/
def add (sc : EffectScope) (item : Nat) : EffectScope :=
  { sc with effects := sc.effects ++ [item] }

/-- The guard `activeScope && !activeScope.stopped` used by both
`effect()` and `onScopeDispose`. -/
def scopeGuard (activeScope : Option EffectScope) : Bool :=
  match activeScope with
  | some sc => !sc.stopped
  | none => false

/-- The scope-facing part of `effect(fn)`: register the new wrapped
effect with the active scope when the guard holds, then run it once
(the second component counts that initial run, which happens in every
case). -/
def effectCreate (activeScope : Option EffectScope) (wrapped : Nat) :
    Option EffectScope × Nat :=
  if scopeGuard activeScope then (activeScope.map (fun sc => add sc wrapped), 1)
  else (activeScope, 1)

/-- `onScopeDispose(fn)`: register a disposal wrapper with the active
scope when the guard holds; otherwise do nothing. -/
def onScopeDispose (activeScope : Option EffectScope) (item : Nat) :
    Option EffectScope :=
  if scopeGuard activeScope then activeScope.map (fun sc => add sc item)
  else activeScope

end Scope

/-! ## JavaScript values with reference identity (ref set trap, array
index trap)

A small model of JS values for the claims about the identity no-op
write elision: primitives compare by value under strict equality,
objects and arrays by identity number; an array carries the flag for
the presence of the internal subscriber property set by
`createArrayProxy`. -/

namespace JSV

inductive JSVal where
  | vnull
  | vundef
  | vnum (n : Int)
  | vstr (s : String)
  | vobj (id : Nat)
  | varr (id : Nat) (hasSubs : Bool)
  deriving DecidableEq, Repr

def isArray : JSVal → Bool
  | .varr _ _ => true
  | _ => false

/-- Presence of the internal subscriber property that
`createArrayProxy` attaches to an array. -/
def hasVSubs : JSVal → Bool
  | .varr _ h => h
  | _ => false

/-- `createArrayProxy` as seen from the ref set trap: attach the
subscriber property to the raw array (and wrap it in the
index-intercepting proxy). -/
def wrapArray : JSVal → JSVal
  | .varr id _ => .varr id true
  | v => v

/-- Strict equality: primitives by value, objects and arrays by
identity. -/
def jsEq : JSVal → JSVal → Bool
  | .vnull, .vnull => true
  | .vundef, .vundef => true
  | .vnum a, .vnum b => a == b
  | .vstr a, .vstr b => a == b
  | .vobj i, .vobj j => i == j
  | .varr i _, .varr j _ => i == j
  | _, _ => false

end JSV

/-! ## The ref set trap over JS values (no-op write elision) -/

namespace RefV

open JSV

structure RefState where
  value : JSVal
  subs : List Nat
  triggerCount : Nat
  deriving DecidableEq, Repr

/-- The `value` set trap of `ref`: a new array without the subscriber
property is wrapped first; then the trigger is skipped exactly when the
(possibly wrapped) new value is not an array and is strictly equal to
the stored value; otherwise the value is stored and `trigger(subs)`
fires (observed by the counter — `trigger` reads but never modifies the
subscriber set). -/
def refSetValue (s : RefState) (newVal : JSVal) : RefState :=
  let nv := if isArray newVal && !hasVSubs newVal then wrapArray newVal else newVal
  if !isArray nv && jsEq s.value nv then s
  else { s with value := nv, triggerCount := s.triggerCount + 1 }

/-- A concrete ref state for witnesses. -/
def refSample : RefState :=
  { value := JSVal.vnum 3, subs := [0], triggerCount := 0 }

end RefV

/-! ## The array index-assignment trap of createArrayProxy -/

namespace ArrV

open JSV

/-- A property key as classified by the trap's `Number(prop)` test:
`numKey i` is a key whose numeric conversion is the number `i`,
`strKey k` one whose conversion is `NaN`. -/
inductive AKey where
  | numKey (i : Int)
  | strKey (k : String)
  deriving DecidableEq, Repr

structure ArrState where
  elems : Int → JSVal
  strProps : String → JSVal
  triggerCount : Nat

/-- The `set` trap installed by `createArrayProxy` (used both by `ref`
for array values and by `reactive`'s get trap for array-valued
properties): a non-negative numeric index is assigned and
unconditionally triggers the array's subscriber set — there is no
identity comparison with the element already stored; any other
property is assigned without triggering. -/
def arrayProxySet (s : ArrState) (p : AKey) (v : JSVal) : ArrState :=
  match p with
  | .numKey i =>
      if 0 ≤ i then
        { s with
            elems := fun j => if j = i then v else s.elems j
            triggerCount := s.triggerCount + 1 }
      else
        { s with elems := fun j => if j = i then v else s.elems j }
  | .strKey k =>
      { s with strProps := fun j => if j = k then v else s.strProps j }

/-- A concrete array state for witnesses. -/
def arrSample : ArrState :=
  { elems := fun _ => JSVal.vnum 0
    strProps := fun _ => JSVal.vundef
    triggerCount := 0 }

end ArrV

/-! ## Watch and its deep-clone snapshot (old/new distinctness)

Embeds the watcher body for a ref source together with `watch`'s
cycle-guarded `deepClone`.  Values are trees of JS values in which
every object, array and `Date` carries an identity number standing for
its heap reference; strict (reference) equality of two object-like
values is equality of their identity numbers.  Cloning threads the
shared `seen` set of the source (a `WeakSet` of already-visited
references, never removed from) and a fresh-identity counter standing
for heap allocation: every object the clone allocates receives an
identity at or above the counter's starting value, so it is a different
reference from every pre-existing value. -/

namespace Watch

inductive WVal where
  | wnull
  | wundef
  | wnum (n : Int)
  | wstr (s : String)
  | wdate (id : Nat) (t : Int)
  | warr (id : Nat) (elems : List WVal)
  | wobj (id : Nat) (fields : List (String × WVal))

/- The identity numbers occurring in a value: its own and those of
every nested object, array and Date. -/
mutual

def idsOf : WVal → List Nat
  | .wnull => []
  | .wundef => []
  | .wnum _ => []
  | .wstr _ => []
  | .wdate id _ => [id]
  | .warr id l => id :: idsOfList l
  | .wobj id fl => id :: idsOfFields fl

def idsOfList : List WVal → List Nat
  | [] => []
  | x :: xs => idsOf x ++ idsOfList xs

def idsOfFields : List (String × WVal) → List Nat
  | [] => []
  | (_, x) :: xs => idsOf x ++ idsOfFields xs

end

/- deepClone(val, seen) from watch: primitives are returned as-is; a
reference already in seen yields undefined (the circular-reference
guard); otherwise the reference is added to seen and a Date is
re-allocated, an array is cloned element-wise, an object field-wise
over its own enumerable properties.  The extra counter argument stands
for heap allocation: each allocated clone node takes the current
counter value as its identity. -/
mutual

def deepClone : WVal → List Nat → Nat → WVal × List Nat × Nat
  | .wnull, seen, fresh => (.wnull, seen, fresh)
  | .wundef, seen, fresh => (.wundef, seen, fresh)
  | .wnum n, seen, fresh => (.wnum n, seen, fresh)
  | .wstr s, seen, fresh => (.wstr s, seen, fresh)
  | .wdate id t, seen, fresh =>
      if id ∈ seen then (.wundef, seen, fresh)
      else (.wdate fresh t, id :: seen, fresh + 1)
  | .warr id l, seen, fresh =>
      if id ∈ seen then (.wundef, seen, fresh)
      else
        let r := deepCloneList l (id :: seen) fresh
        (.warr r.2.2 r.1, r.2.1, r.2.2 + 1)
  | .wobj id fl, seen, fresh =>
      if id ∈ seen then (.wundef, seen, fresh)
      else
        let r := deepCloneFields fl (id :: seen) fresh
        (.wobj r.2.2 r.1, r.2.1, r.2.2 + 1)

def deepCloneList : List WVal → List Nat → Nat → List WVal × List Nat × Nat
  | [], seen, fresh => ([], seen, fresh)
  | x :: xs, seen, fresh =>
      let rx := deepClone x seen fresh
      let rxs := deepCloneList xs rx.2.1 rx.2.2
      (rx.1 :: rxs.1, rxs.2.1, rxs.2.2)

def deepCloneFields : List (String × WVal) → List Nat → Nat →
    List (String × WVal) × List Nat × Nat
  | [], seen, fresh => ([], seen, fresh)
  | (k, x) :: xs, seen, fresh =>
      let rx := deepClone x seen fresh
      let rxs := deepCloneFields xs rx.2.1 rx.2.2
      ((k, rx.1) :: rxs.1, rxs.2.1, rxs.2.2)

end

/- Deep structural equality: identity numbers are ignored, contents
are compared — the sense in which a snapshot is deep-equal to the value
it cloned. -/
mutual

def deepEq : WVal → WVal → Bool
  | .wnull, .wnull => true
  | .wundef, .wundef => true
  | .wnum a, .wnum b => a == b
  | .wstr a, .wstr b => a == b
  | .wdate _ t, .wdate _ u => t == u
  | .warr _ l, .warr _ m => deepEqList l m
  | .wobj _ fl, .wobj _ gl => deepEqFields fl gl
  | _, _ => false

def deepEqList : List WVal → List WVal → Bool
  | [], [] => true
  | x :: xs, y :: ys => deepEq x y && deepEqList xs ys
  | _, _ => false

def deepEqFields : List (String × WVal) → List (String × WVal) → Bool
  | [], [] => true
  | (k, x) :: xs, (j, y) :: ys => k == j && deepEq x y && deepEqFields xs ys
  | _, _ => false

end

/-- The heap reference of a value: object-like values carry one,
primitives do not. -/
def refId : WVal → Option Nat
  | .wdate id _ => some id
  | .warr id _ => some id
  | .wobj id _ => some id
  | _ => none

/-- Strict equality of primitives. -/
def primEq : WVal → WVal → Bool
  | .wnull, .wnull => true
  | .wundef, .wundef => true
  | .wnum a, .wnum b => a == b
  | .wstr a, .wstr b => a == b
  | _, _ => false

/-- Reference (strict) equality: object-like values compare by
identity number, primitives by value, and an object never equals a
primitive. -/
def refEq (a b : WVal) : Bool :=
  match refId a, refId b with
  | some i, some j => i == j
  | none, none => primEq a b
  | _, _ => false

/-- The per-watcher state: the retained `oldValue` snapshot (initially
`undefined`), the `initialized` flag, and the heap-allocation counter
of the modelled world. -/
structure WState where
  oldValue : WVal
  initialized : Bool
  fresh : Nat

/-- One run of the `watchEffect` body for a ref source whose current
value is `newValue`: if this is not the first run (or `immediate` was
requested) the callback receives `(newValue, oldValue)` — returned in
the second component — with tracking suspended; afterwards `oldValue`
becomes a fresh deep clone of `newValue` and `initialized` is set. -/
def watchRun (immediate : Bool) (w : WState) (newValue : WVal) :
    WState × Option (WVal × WVal) :=
  let call := if w.initialized || immediate then some (newValue, w.oldValue) else none
  let r := deepClone newValue [] w.fresh
  ({ oldValue := r.1, initialized := true, fresh := r.2.2 }, call)

/-- A freshly constructed watcher over a world whose allocation counter
is `n`: `oldValue` starts as `undefined`, nothing has run yet. -/
def mkWatcher (n : Nat) : WState :=
  { oldValue := .wundef, initialized := false, fresh := n }

end Watch

end ReactiveJS

namespace ReactiveJS

namespace Computed

theorem writeX_calls (s : CState) (v : Int) : (writeX s v).calls = s.calls := by
  unfold writeX notifierRun
  split
  · rfl
  · split
    · rfl
    · split <;> rfl

theorem writeX_stopped (s : CState) (v : Int) : (writeX s v).stopped = s.stopped := by
  unfold writeX notifierRun
  split
  · rfl
  · split
    · rfl
    · split <;> rfl

theorem writeSeq_calls (s : CState) (vs : List Int) : (writeSeq s vs).calls = s.calls := by
  induction vs generalizing s with
  | nil => rfl
  | cons v r ih => simp [writeSeq, List.foldl] at *; rw [ih, writeX_calls]

theorem writeSeq_stopped (s : CState) (vs : List Int) :
    (writeSeq s vs).stopped = s.stopped := by
  induction vs generalizing s with
  | nil => rfl
  | cons v r ih => simp [writeSeq, List.foldl] at *; rw [ih, writeX_stopped]

theorem writeX_dirty_mono (s : CState) (v : Int) (h : s.dirty = true) :
    (writeX s v).dirty = true := by
  unfold writeX notifierRun
  split
  · exact h
  · split
    · exact h
    · simp [h]

theorem writeSeq_dirty_mono (s : CState) (vs : List Int) (h : s.dirty = true) :
    (writeSeq s vs).dirty = true := by
  induction vs generalizing s with
  | nil => exact h
  | cons v r ih =>
      simp only [writeSeq, List.foldl] at *
      exact ih _ (writeX_dirty_mono s v h)

theorem writeSeq_dirty_of_not_allElided (s : CState) (vs : List Int)
    (hs : s.stopped = false) (h : allElided s.x vs = false) :
    (writeSeq s vs).dirty = true := by
  induction vs generalizing s with
  | nil => simp [allElided] at h
  | cons v r ih =>
      simp only [writeSeq, List.foldl] at *
      by_cases hv : s.x = v
      · have hwx : writeX s v = s := by simp [writeX, hv]
        rw [hwx]
        apply ih s hs
        simp [allElided] at h ⊢
        exact h hv.symm
      · have hd : (writeX s v).dirty = true := by
          simp [writeX, hv, notifierRun, hs]
          split <;> simp_all
        exact writeSeq_dirty_mono _ r hd

theorem notifierRun_x (s : CState) : (notifierRun s).x = s.x := by
  unfold notifierRun
  split
  · rfl
  · split <;> rfl

theorem notifierRun_stopped (s : CState) : (notifierRun s).stopped = s.stopped := by
  unfold notifierRun
  split
  · rfl
  · split <;> rfl

theorem notifierRun_dirty (s : CState) (h : s.stopped = false) :
    (notifierRun s).dirty = true := by
  unfold notifierRun
  split
  · simp_all
  · split
    · assumption
    · simp

theorem mk_inv (g : Int → Int) (x0 : Int) : Inv g (mkComputed g x0) := by
  exact ⟨rfl, fun _ => rfl⟩

theorem writeX_inv (g : Int → Int) (s : CState) (v : Int) (h : Inv g s) :
    Inv g (writeX s v) := by
  unfold writeX
  split
  · exact h
  · next hxv =>
      refine ⟨by rw [notifierRun_stopped]; exact h.1, fun hd => ?_⟩
      rw [notifierRun_dirty { s with x := v } h.1] at hd
      exact absurd hd (by simp)

theorem readValue_inv (g : Int → Int) (s : CState) (h : Inv g s) :
    Inv g (readValue g s).2 := by
  unfold readValue
  dsimp only
  split
  · exact ⟨h.1, fun _ => rfl⟩
  · exact h

theorem runOps_inv (g : Int → Int) (s : CState) (ops : List Op) (h : Inv g s) :
    Inv g (runOps g s ops) := by
  induction ops generalizing s with
  | nil => exact h
  | cons op r ih =>
      simp only [runOps, List.foldl] at *
      apply ih
      cases op with
      | write v => exact writeX_inv g s v h
      | read => exact readValue_inv g s h

/-- Claim C1, counterexample to the claim as stated.  With
`c = computed(fun n => 2 * n)` over a ref holding `1`, a single write
(`N = 1`) of the referentially identical value `1` is elided by the
ref's no-op write elision: the notifier never fires, the computed stays
clean, and the next read of `c.value` invokes the getter zero times —
not exactly once as the claim requires for every `N ≥ 1`. -/
theorem computed_lazy_claim_counterexample :
    ¬ ((readValue (fun n => 2 * n)
          (writeSeq (mkComputed (fun n => 2 * n) 1) [1])).2.calls =
        (mkComputed (fun n => 2 * n) 1).calls + 1) := by
  decide

/-- Claim C1, amended: after construction, a block of writes to the
tracked ref — at least one of which actually changes the stored value,
so that it is not elided by the identity no-op write elision — never
invokes the getter; the next read of `.value` then invokes the getter
exactly once and returns the getter's result over the post-write
dependency state. -/
theorem computed_lazy_amended (g : Int → Int) (x0 : Int) (vs : List Int)
    (h : allElided (mkComputed g x0).x vs = false) :
    (writeSeq (mkComputed g x0) vs).calls = (mkComputed g x0).calls ∧
    (readValue g (writeSeq (mkComputed g x0) vs)).2.calls =
      (mkComputed g x0).calls + 1 ∧
    (readValue g (writeSeq (mkComputed g x0) vs)).1 =
      g (writeSeq (mkComputed g x0) vs).x := by
  have hs0 : (mkComputed g x0).stopped = false := rfl
  have hd : (writeSeq (mkComputed g x0) vs).dirty = true :=
    writeSeq_dirty_of_not_allElided _ _ hs0 h
  have hst : (writeSeq (mkComputed g x0) vs).stopped = false := by
    rw [writeSeq_stopped]
    exact hs0
  refine ⟨writeSeq_calls _ _, ?_, ?_⟩
  · simp [readValue, hd, hst, recompute, writeSeq_calls]
  · simp [readValue, hd, hst, recompute]

/-- Witness for the amended claim C1 at a concrete input: ref starts at
`5`, one non-elided write of `6`. -/
theorem computed_lazy_amended_witness :
    allElided (mkComputed (fun n => 2 * n) 5).x [6] = false ∧
    ((writeSeq (mkComputed (fun n => 2 * n) 5) [6]).calls =
        (mkComputed (fun n => 2 * n) 5).calls ∧
      (readValue (fun n => 2 * n)
            (writeSeq (mkComputed (fun n => 2 * n) 5) [6])).2.calls =
          (mkComputed (fun n => 2 * n) 5).calls + 1 ∧
      (readValue (fun n => 2 * n)
            (writeSeq (mkComputed (fun n => 2 * n) 5) [6])).1 =
        (fun n => 2 * n) (writeSeq (mkComputed (fun n => 2 * n) 5) [6]).x) :=
  ⟨by decide, computed_lazy_amended (fun n => 2 * n) 5 [6] (by decide)⟩

/-- Claim C2: for a computed depending on a ref, a write to the ref
followed synchronously by a read of the computed's `.value` (with no
scheduler flush in between — none is involved, the notifier is sync and
the recompute happens inside the read) returns the getter's result over
the post-write state, from any state reachable by reads and writes. -/
theorem computed_sync_fresh (g : Int → Int) (x0 : Int) (ops : List Op) (v : Int) :
    (readValue g (writeX (runOps g (mkComputed g x0) ops) v)).1 = g v := by
  have hinv : Inv g (runOps g (mkComputed g x0) ops) :=
    runOps_inv g _ ops (mk_inv g x0)
  set s := runOps g (mkComputed g x0) ops with hs
  unfold writeX
  split
  · -- elided identity write: the stored value already equals v
    next hxv =>
      unfold readValue
      dsimp only
      split
      · next hcond => simp [recompute, hxv]
      · next hcond =>
          simp only [Bool.and_eq_true, Bool.not_eq_true', not_and] at hcond
          cases hdt : s.dirty with
          | false => exact hxv ▸ hinv.2 hdt
          | true => exact absurd hinv.1 (hcond hdt)
  · -- effective write: the notifier marks the computed dirty, the read
    -- recomputes over the post-write state
    next hxv =>
      have hstop : (notifierRun { s with x := v }).stopped = false := by
        rw [notifierRun_stopped]; exact hinv.1
      have hdirty : (notifierRun { s with x := v }).dirty = true :=
        notifierRun_dirty _ hinv.1
      have hx : (notifierRun { s with x := v }).x = v := by
        rw [notifierRun_x]
      simp [readValue, hstop, hdirty, recompute, hx]

end Computed

end ReactiveJS

namespace ReactiveJS

namespace Sched

theorem flushLoopAux_empty {σ : Type} (run : Nat → St σ → St σ)
    (stopFlag : Nat → St σ → Bool) (r : Nat) (s : St σ) (h : s.queue = []) :
    flushLoopAux run stopFlag r s = (s, none) := by
  unfold flushLoopAux
  rw [if_pos h]

theorem flushLoopAux_step {σ : Type} (run : Nat → St σ → St σ)
    (stopFlag : Nat → St σ → Bool) (r' : Nat) (s : St σ) (h : ¬ s.queue = []) :
    flushLoopAux run stopFlag (r' + 1) s =
      flushLoopAux run stopFlag r' (flushPass run stopFlag s) := by
  conv_lhs => rw [flushLoopAux]
  rw [if_neg h]

theorem flushLoopAux_queue {σ : Type} (run : Nat → St σ → St σ)
    (stopFlag : Nat → St σ → Bool) :
    ∀ (r : Nat) (s : St σ), (flushLoopAux run stopFlag r s).1.queue = [] := by
  intro r
  induction r with
  | zero =>
      intro s
      unfold flushLoopAux
      split
      · next h => exact h
      · rfl
  | succ r' ih =>
      intro s
      unfold flushLoopAux
      split
      · next h => exact h
      · exact ih _

theorem flushLoopAux_err_shape {σ : Type} (run : Nat → St σ → St σ)
    (stopFlag : Nat → St σ → Bool) :
    ∀ (r : Nat) (s : St σ),
      (flushLoopAux run stopFlag r s).2 = none ∨
      (flushLoopAux run stopFlag r s).2 = some flushLoopErrorMsg := by
  intro r
  induction r with
  | zero =>
      intro s
      unfold flushLoopAux
      split
      · exact Or.inl rfl
      · exact Or.inr rfl
  | succ r' ih =>
      intro s
      unfold flushLoopAux
      split
      · exact Or.inl rfl
      · exact ih _

theorem flushLoopAux_none_iff {σ : Type} (run : Nat → St σ → St σ)
    (stopFlag : Nat → St σ → Bool) :
    ∀ (r : Nat) (s : St σ),
      (flushLoopAux run stopFlag r s).2 = none ↔
        ∃ j, j ≤ r ∧ ((flushPass run stopFlag)^[j] s).queue = [] := by
  intro r
  induction r with
  | zero =>
      intro s
      unfold flushLoopAux
      split
      · next h =>
          exact ⟨fun _ => ⟨0, Nat.le_refl 0, by simpa using h⟩, fun _ => rfl⟩
      · next h =>
          constructor
          · intro hc
            exact absurd hc (by simp)
          · rintro ⟨j, hj, hq⟩
            interval_cases j
            exact absurd (by simpa using hq) h
  | succ r' ih =>
      intro s
      unfold flushLoopAux
      split
      · next h =>
          exact ⟨fun _ => ⟨0, Nat.zero_le _, by simpa using h⟩, fun _ => rfl⟩
      · next h =>
          rw [ih]
          constructor
          · rintro ⟨j, hj, hq⟩
            refine ⟨j + 1, Nat.succ_le_succ hj, ?_⟩
            rw [Function.iterate_succ_apply]
            exact hq
          · rintro ⟨j, hj, hq⟩
            cases j with
            | zero => exact absurd (by simpa using hq) h
            | succ j' =>
                refine ⟨j', Nat.le_of_succ_le_succ hj, ?_⟩
                rw [Function.iterate_succ_apply] at hq
                exact hq

/-- Claim C4: the scheduler's flush loop always terminates (it is a
total function of the state).  The final queue is empty in every case;
the loop raises no error exactly when some pass within the hard cap of
100 iterations leaves the queue empty (so below the cap the loop exits
normally once the queue is empty), and otherwise the only possible
outcome is the single descriptive possible-infinite-reactive-loop
error, raised with the queue cleared. -/
theorem flush_loop_terminates {σ : Type} (run : Nat → St σ → St σ)
    (stopFlag : Nat → St σ → Bool) (s : St σ) :
    (flushEffectQueue run stopFlag s).1.queue = [] ∧
    (flushEffectQueue run stopFlag s).1.isFlushing = false ∧
    ((flushEffectQueue run stopFlag s).2 = none ∨
      (flushEffectQueue run stopFlag s).2 = some flushLoopErrorMsg) ∧
    ((flushEffectQueue run stopFlag s).2 = none ↔
      ∃ j, j ≤ MAX_FLUSH_ITERATIONS ∧
        ((flushPass run stopFlag)^[j]
            { s with isFlushPending := false, isFlushing := true }).queue = []) := by
  refine ⟨?_, rfl, ?_, ?_⟩
  · exact flushLoopAux_queue run stopFlag _ _
  · exact flushLoopAux_err_shape run stopFlag _ _
  · exact flushLoopAux_none_iff run stopFlag _ _

end Sched

end ReactiveJS

namespace ReactiveJS

namespace Batch

open Sched

theorem writeRefX_init_elided (x0 v : Int) (r0 : Nat) (h : x0 = v) :
    writeRefX (initB x0 r0) v = initB x0 r0 := by
  have h' : (initB x0 r0).world.xval = v := h
  unfold writeRefX
  rw [if_pos h']

theorem writeRefX_init_effective (x0 v : Int) (r0 : Nat) (h : ¬ x0 = v) :
    writeRefX (initB x0 r0) v = QB v r0 := by
  have h' : ¬ (initB x0 r0).world.xval = v := h
  unfold writeRefX
  rw [if_neg h']
  rfl

theorem writeRefX_queued (x v : Int) (r0 : Nat) :
    writeRefX (QB x r0) v = QB v r0 := by
  unfold writeRefX
  by_cases h : x = v
  · have h' : (QB x r0).world.xval = v := h
    rw [if_pos h', h]
  · have h' : ¬ (QB x r0).world.xval = v := h
    rw [if_neg h']
    rfl

theorem flush_queued (v : Int) (r0 : Nat) :
    flushEffectQueue runEff effStopped (QB v r0) =
      ({ queue := []
         isFlushPending := false
         isFlushing := false
         world := { xval := v, subs := [0], deps := [0], runs := r0 + 1 } }, none) := by
  rfl

/-- Claim C3, counterexample to the claim as stated.  Three writes of
the value already stored in the ref are all elided by the ref's
identity no-op write elision: the observing async effect is never
queued and the flush produces zero additional runs, not exactly one. -/
theorem batching_claim_counterexample :
    ¬ ((flushEffectQueue runEff effStopped
          (writeRefX (writeRefX (writeRefX (initB 0 0) 0) 0) 0)).1.world.runs = 0 + 1) := by
  decide

/-- Claim C3, amended: three synchronous writes to the ref observed by
one non-sync effect, at least one of which is not elided (it changes
the stored value), queue the effect at most once — the Set-based
scheduler dedupes per flush — so the flush produces exactly one
additional run of the effect, not three. -/
theorem batching_dedupes (x0 v1 v2 v3 : Int) (r0 : Nat)
    (h : ¬ (v1 = x0 ∧ v2 = x0 ∧ v3 = x0)) :
    (flushEffectQueue runEff effStopped
        (writeRefX (writeRefX (writeRefX (initB x0 r0) v1) v2) v3)).1.world.runs =
      r0 + 1 := by
  by_cases h1 : x0 = v1
  · rw [writeRefX_init_elided x0 v1 r0 h1]
    by_cases h2 : x0 = v2
    · have h3 : ¬ x0 = v3 := fun hc => h ⟨h1.symm, h2.symm, hc.symm⟩
      rw [writeRefX_init_elided x0 v2 r0 h2]
      rw [writeRefX_init_effective x0 v3 r0 h3]
      rw [flush_queued]
    · rw [writeRefX_init_effective x0 v2 r0 h2]
      rw [writeRefX_queued]
      rw [flush_queued]
  · rw [writeRefX_init_effective x0 v1 r0 h1]
    rw [writeRefX_queued, writeRefX_queued]
    rw [flush_queued]

/-- Witness for the amended claim C3: ref holds `0`, writes `1`, `1`,
`0` in one synchronous block, one flush, exactly one additional run. -/
theorem batching_dedupes_witness :
    ¬ ((1 : Int) = 0 ∧ (1 : Int) = 0 ∧ (0 : Int) = 0) ∧
    (flushEffectQueue runEff effStopped
        (writeRefX (writeRefX (writeRefX (initB 0 5) 1) 1) 0)).1.world.runs = 5 + 1 :=
  ⟨by decide, batching_dedupes 0 1 1 0 5 (by decide)⟩

end Batch

end ReactiveJS

namespace ReactiveJS

namespace Eff

theorem track_stopped (s : ES) (d : Nat) : (track s d).stopped = s.stopped := by
  unfold track
  split <;> rfl

theorem track_runs (s : ES) (d : Nat) : (track s d).runs = s.runs := by
  unfold track
  split <;> rfl

theorem wf_cleanup (s : ES) (h : WF s) : WF (cleanup s) := by
  constructor
  · intro d hd
    unfold cleanup at hd
    simp only at hd
    split at hd
    · exact absurd hd (by simp)
    · next hnd => exact absurd (h.1 d hd) hnd
  · intro hst
    have h2 := h.2 hst
    refine ⟨fun d => ?_, h2.2⟩
    unfold cleanup
    simp only
    split
    · rfl
    · exact h2.1 d

theorem wf_track (s : ES) (d : Nat) (h : WF s) (hst : s.stopped = false) :
    WF (track s d) := by
  unfold track
  split
  · exact h
  · constructor
    · intro e he
      simp only at he
      split at he
      · next hed => simp [hed]
      · exact List.mem_append_left _ (h.1 e he)
    · intro hc
      simp only at hc
      rw [hst] at hc
      exact absurd hc (by simp)

theorem wf_foldl_track (L : List Nat) (s : ES) (h : WF s) (hst : s.stopped = false) :
    WF (L.foldl track s) ∧ (L.foldl track s).stopped = false := by
  induction L generalizing s with
  | nil => exact ⟨h, hst⟩
  | cons d r ih =>
      simp only [List.foldl]
      exact ih (track s d) (wf_track s d h hst) ((track_stopped s d).trans hst)

theorem wf_runBody (reads : ES → List Nat) (s : ES) (h : WF s) :
    WF (runBody reads s) := by
  unfold runBody
  split
  · exact h
  · next hst =>
      have hst' : s.stopped = false := by
        cases hs : s.stopped
        · rfl
        · exact absurd hs hst
      have hc := wf_cleanup s h
      have hcs : (cleanup s).stopped = false := hst'
      have hf := wf_foldl_track (reads (cleanup s)) (cleanup s) hc hcs
      constructor
      · intro d hd
        exact hf.1.1 d hd
      · intro hcon
        simp only at hcon
        rw [hf.2] at hcon
        exact absurd hcon (by simp)

theorem wf_queueEffect0 (s : ES) (h : WF s) (hst : s.stopped = false) :
    WF (queueEffect0 s) := by
  unfold queueEffect0
  split
  · exact h
  · constructor
    · exact fun d hd => h.1 d hd
    · intro hc
      simp only at hc
      rw [hst] at hc
      exact absurd hc (by simp)

theorem wf_triggerRef (reads : ES → List Nat) (sync : Bool) (s : ES) (h : WF s) :
    WF (triggerRef reads sync s) := by
  unfold triggerRef
  split
  · next h0 =>
      have hst : s.stopped = false := by
        cases hs : s.stopped
        · rfl
        · exact absurd ((h.2 hs).1 0) (by simp [h0])
      split
      · rw [hst]
        simp only [Bool.false_eq_true, if_false]
        exact wf_runBody reads s h
      · exact wf_queueEffect0 s h hst
  · exact h

theorem wf_writeRef (reads : ES → List Nat) (sync : Bool) (s : ES) (v : Int)
    (h : WF s) : WF (writeRef reads sync s v) := by
  unfold writeRef
  split
  · exact h
  · apply wf_triggerRef
    exact ⟨fun d hd => h.1 d hd, fun hs => h.2 hs⟩

theorem writeRef_runs_async (reads : ES → List Nat) (s : ES) (v : Int) :
    (writeRef reads false s v).runs = s.runs := by
  unfold writeRef triggerRef queueEffect0
  split
  · rfl
  · split
    · simp only [Bool.false_eq_true, if_false]
      split <;> rfl
    · rfl

theorem stopEffect_stopped (s : ES) : (stopEffect s).stopped = true := by
  unfold stopEffect
  split
  · assumption
  · rfl

theorem stopEffect_runs (s : ES) : (stopEffect s).runs = s.runs := by
  unfold stopEffect
  split <;> rfl

theorem stopEffect_stopped0 (s : ES) (h : WF s) : Stopped0 (stopEffect s) := by
  unfold stopEffect
  split
  · next hs => exact ⟨hs, (h.2 hs).1, (h.2 hs).2⟩
  · refine ⟨rfl, fun d => ?_, rfl⟩
    show (if d ∈ s.deps then false else s.sets d) = false
    split
    · rfl
    · next hnd =>
        cases hd : s.sets d
        · rfl
        · exact absurd (h.1 d hd) hnd

theorem stopEffect_idem (s : ES) : stopEffect (stopEffect s) = stopEffect s := by
  conv_lhs => rw [stopEffect]
  rw [if_pos (stopEffect_stopped s)]

theorem stopped0_step (reads : ES → List Nat) (sync : Bool) (s : ES)
    (h : Stopped0 s) (op : EOp) :
    Stopped0 (applyEOp reads sync s op) ∧ (applyEOp reads sync s op).runs = s.runs := by
  cases op with
  | write v =>
      show Stopped0 (writeRef reads sync s v) ∧ (writeRef reads sync s v).runs = s.runs
      unfold writeRef triggerRef
      split
      · exact ⟨h, rfl⟩
      · rw [show ({ s with xval := v } : ES).sets 0 = false from h.2.1 0]
        rw [if_neg (by simp : ¬ (false = true))]
        exact ⟨⟨h.1, h.2.1, h.2.2⟩, rfl⟩
  | invoke =>
      show Stopped0 (runBody reads s) ∧ (runBody reads s).runs = s.runs
      unfold runBody
      rw [if_pos h.1]
      exact ⟨h, rfl⟩
  | flushPass =>
      show Stopped0 (flushPassE reads s) ∧ (flushPassE reads s).runs = s.runs
      unfold flushPassE
      rw [show s.queue = false from h.2.2]
      rw [if_neg (by simp : ¬ (false = true))]
      exact ⟨⟨h.1, h.2.1, rfl⟩, rfl⟩
  | stop =>
      show Stopped0 (stopEffect s) ∧ (stopEffect s).runs = s.runs
      unfold stopEffect
      rw [if_pos h.1]
      exact ⟨h, rfl⟩

theorem stopped0_runs_const (reads : ES → List Nat) (sync : Bool) (s : ES)
    (h : Stopped0 s) (ops : List EOp) :
    (runEOps reads sync s ops).runs = s.runs := by
  induction ops generalizing s with
  | nil => rfl
  | cons op r ih =>
      simp only [runEOps, List.foldl] at *
      have hstep := stopped0_step reads sync s h op
      rw [ih _ hstep.1, hstep.2]

/-- Claim C5: `.stop()` on an effect is idempotent (a second call
changes nothing and raises no error), removes the effect from a pending
scheduler queue, itself never runs the body, and after it returns the
body never executes again — not by direct invocation of the returned
callable, not via `trigger` on a dependency write, not via a pending
flush; in particular a trigger-then-immediate-stop sequence produces
zero further runs.  `WF` is the bookkeeping invariant every effect
created by `effect()` maintains. -/
theorem stop_correct (reads : ES → List Nat) (sync : Bool) (s : ES) (hwf : WF s) :
    stopEffect (stopEffect s) = stopEffect s ∧
    (stopEffect s).queue = false ∧
    (stopEffect s).runs = s.runs ∧
    (∀ ops, (runEOps reads sync (stopEffect s) ops).runs = s.runs) ∧
    (∀ v ops,
      (runEOps reads false (stopEffect (writeRef reads false s v)) ops).runs =
        (writeRef reads false s v).runs) := by
  refine ⟨stopEffect_idem s, (stopEffect_stopped0 s hwf).2.2, stopEffect_runs s,
    fun ops => ?_, fun v ops => ?_⟩
  · rw [stopped0_runs_const reads sync _ (stopEffect_stopped0 s hwf) ops]
    exact stopEffect_runs s
  · rw [stopped0_runs_const reads false _
      (stopEffect_stopped0 _ (wf_writeRef reads false s v hwf)) ops]
    exact stopEffect_runs _

/-- Witness for claim C5: a live effect subscribed to the ref and
sitting in the scheduler queue. -/
theorem stop_correct_witness :
    WF sampleLive ∧
    (stopEffect (stopEffect sampleLive) = stopEffect sampleLive ∧
      (stopEffect sampleLive).queue = false ∧
      (stopEffect sampleLive).runs = sampleLive.runs ∧
      (∀ ops, (runEOps readsRef false (stopEffect sampleLive) ops).runs =
        sampleLive.runs) ∧
      (∀ v ops,
        (runEOps readsRef false
            (stopEffect (writeRef readsRef false sampleLive v)) ops).runs =
          (writeRef readsRef false sampleLive v).runs)) := by
  have hwf : WF sampleLive := by
    constructor
    · intro d hd
      simp only [sampleLive, beq_iff_eq] at hd
      simp [hd, sampleLive]
    · intro hc
      exact absurd hc (by simp [sampleLive])
  exact ⟨hwf, stop_correct readsRef false sampleLive hwf⟩

/-- Claim C6: an effect that reads dependency set `a` on one run and
only dependency set `b` on its next run is a member of `a`'s set after
the first run, and after the second run is no longer a member of `a`'s
set and is a member of `b`'s — the `cleanup` performed before every run
removes the effect from each set recorded by the previous run. -/
theorem stale_dep_pruning (a b : Nat) (hab : a ≠ b) (s : ES)
    (hfresh : ∀ d, s.sets d = false) (hdeps : s.deps = [])
    (hstop : s.stopped = false) (hruns : s.runs = 0) :
    (runBody (readsSwitch a b) s).sets a = true ∧
    (runBody (readsSwitch a b) (runBody (readsSwitch a b) s)).sets a = false ∧
    (runBody (readsSwitch a b) (runBody (readsSwitch a b) s)).sets b = true := by
  refine ⟨?_, ?_, ?_⟩ <;>
    simp [runBody, cleanup, track, readsSwitch, List.foldl, hstop, hdeps, hruns,
      hfresh, hab, Ne.symm hab]

/-- Witness for claim C6 at the fresh effect state with sets `1` and
`2`. -/
theorem stale_dep_pruning_witness :
    (1 : Nat) ≠ 2 ∧
    ((runBody (readsSwitch 1 2) freshES).sets 1 = true ∧
      (runBody (readsSwitch 1 2) (runBody (readsSwitch 1 2) freshES)).sets 1 = false ∧
      (runBody (readsSwitch 1 2) (runBody (readsSwitch 1 2) freshES)).sets 2 = true) :=
  ⟨by decide,
    stale_dep_pruning 1 2 (by decide) freshES (fun _ => rfl) rfl rfl rfl⟩

end Eff

end ReactiveJS

namespace ReactiveJS

namespace Scope

/-- Claim C9: `effect(fn)` and `onScopeDispose(fn)` register into the
currently active scope exactly when one exists and is not stopped.
With a live active scope the item is appended to the scope's `effects`;
with a stopped active scope nothing is registered (the scope is left
unchanged) yet the effect still runs once; with no active scope nothing
is registered and the effect still runs once. -/
theorem scope_registration (sc : EffectScope) (e f : Nat) :
    (sc.stopped = false →
      effectCreate (some sc) e = (some (add sc e), 1) ∧
      onScopeDispose (some sc) f = some (add sc f)) ∧
    (sc.stopped = true →
      effectCreate (some sc) e = (some sc, 1) ∧
      onScopeDispose (some sc) f = some sc) ∧
    effectCreate none e = (none, 1) ∧
    onScopeDispose none f = none := by
  refine ⟨fun hlive => ?_, fun hstop => ?_, rfl, rfl⟩
  · constructor <;> simp [effectCreate, onScopeDispose, scopeGuard, hlive]
  · constructor <;> simp [effectCreate, onScopeDispose, scopeGuard, hstop]

/-- Witness for claim C9 on a concrete stopped scope and a concrete
live scope. -/
theorem scope_registration_witness :
    ((false : Bool) = false →
      effectCreate (some { effects := [], children := [], stopped := false }) 4 =
        (some (add { effects := [], children := [], stopped := false } 4), 1) ∧
      onScopeDispose (some { effects := [], children := [], stopped := false }) 9 =
        some (add { effects := [], children := [], stopped := false } 9)) ∧
    ((false : Bool) = true →
      effectCreate (some { effects := [], children := [], stopped := false }) 4 =
        (some { effects := [], children := [], stopped := false }, 1) ∧
      onScopeDispose (some { effects := [], children := [], stopped := false }) 9 =
        some { effects := [], children := [], stopped := false }) ∧
    effectCreate none 4 = (none, 1) ∧
    onScopeDispose none 9 = none :=
  scope_registration { effects := [], children := [], stopped := false } 4 9

end Scope

namespace RefV

open JSV

/-- Claim C7: writing a value strictly equal to the stored one triggers
no subscribers and leaves the ref state — stored value, dependency set,
trigger count — completely unchanged; this elision is skipped when the
written value is an array: an array write always stores and fires
`trigger`, whatever the identity of the array, and `trigger` leaves the
subscriber set itself untouched. -/
theorem ref_write_elision (s : RefState) (v : JSVal)
    (hna : isArray v = false) (hid : jsEq s.value v = true) :
    refSetValue s v = s ∧
    (∀ a, isArray a = true →
      (refSetValue s a).triggerCount = s.triggerCount + 1 ∧
      (refSetValue s a).subs = s.subs) := by
  constructor
  · unfold refSetValue
    simp only [hna, Bool.false_and, Bool.false_eq_true, if_false, Bool.not_false,
      Bool.true_and]
    rw [if_pos]
    rw [hid]
  · intro a ha
    have hwrap : isArray (if isArray a && !hasVSubs a then wrapArray a else a) = true := by
      cases a with
      | varr id hs => cases hs <;> rfl
      | vnull => exact Bool.noConfusion ha
      | vundef => exact Bool.noConfusion ha
      | vnum n => exact Bool.noConfusion ha
      | vstr t => exact Bool.noConfusion ha
      | vobj i => exact Bool.noConfusion ha
    unfold refSetValue
    constructor
    · simp only [hwrap]
      rfl
    · simp only [hwrap]
      rfl

/-- Witness for claim C7: a ref holding the number `3`, written the
strictly equal number `3`. -/
theorem ref_write_elision_witness :
    isArray (JSVal.vnum 3) = false ∧
    jsEq refSample.value (JSVal.vnum 3) = true ∧
    (refSetValue refSample (JSVal.vnum 3) = refSample ∧
      (∀ a, isArray a = true →
        (refSetValue refSample a).triggerCount = refSample.triggerCount + 1 ∧
        (refSetValue refSample a).subs = refSample.subs)) :=
  ⟨by decide, by decide, ref_write_elision refSample (JSVal.vnum 3) (by decide) (by decide)⟩

end RefV

namespace ArrV

open JSV

/-- Claim C10: assigning to a non-negative numeric index of a
reactivity-wrapped array (the proxy installed by `createArrayProxy`,
used both for arrays held in a ref and for arrays reached through a
reactive object property) always triggers the array's subscriber set —
in particular also when the assigned value is the very element already
stored at that index: the trap performs no identity-based elision. -/
theorem array_index_write_triggers (s : ArrState) (i : Int) (v : JSVal)
    (h : 0 ≤ i) :
    (arrayProxySet s (AKey.numKey i) v).triggerCount = s.triggerCount + 1 ∧
    (arrayProxySet s (AKey.numKey i) (s.elems i)).triggerCount =
      s.triggerCount + 1 := by
  constructor <;>
    · simp only [arrayProxySet]
      rw [if_pos h]

/-- Witness for claim C10: index `2` of a concrete wrapped array,
including the write of the element already stored there. -/
theorem array_index_write_triggers_witness :
    (0 : Int) ≤ 2 ∧
    ((arrayProxySet arrSample (AKey.numKey 2) (JSVal.vnum 5)).triggerCount =
        arrSample.triggerCount + 1 ∧
      (arrayProxySet arrSample (AKey.numKey 2) (arrSample.elems 2)).triggerCount =
        arrSample.triggerCount + 1) :=
  ⟨by decide, array_index_write_triggers arrSample 2 (JSVal.vnum 5) (by decide)⟩

end ArrV

end ReactiveJS

namespace ReactiveJS

namespace Watch

mutual

theorem clone_frame (v : WVal) (seen : List Nat) (f : Nat) :
    (∀ i ∈ seen, i ∈ (deepClone v seen f).2.1) ∧
    (∀ i ∈ (deepClone v seen f).2.1, i ∈ seen ∨ i ∈ idsOf v) ∧
    f ≤ (deepClone v seen f).2.2 ∧
    (∀ i ∈ idsOf (deepClone v seen f).1,
      f ≤ i ∧ i < (deepClone v seen f).2.2) := by
  cases v with
  | wnull =>
      simp only [deepClone]
      exact ⟨fun i hi => hi, fun i hi => Or.inl hi, Nat.le_refl f,
        fun i hi => absurd hi (by simp [idsOf])⟩
  | wundef =>
      simp only [deepClone]
      exact ⟨fun i hi => hi, fun i hi => Or.inl hi, Nat.le_refl f,
        fun i hi => absurd hi (by simp [idsOf])⟩
  | wnum n =>
      simp only [deepClone]
      exact ⟨fun i hi => hi, fun i hi => Or.inl hi, Nat.le_refl f,
        fun i hi => absurd hi (by simp [idsOf])⟩
  | wstr s =>
      simp only [deepClone]
      exact ⟨fun i hi => hi, fun i hi => Or.inl hi, Nat.le_refl f,
        fun i hi => absurd hi (by simp [idsOf])⟩
  | wdate id t =>
      by_cases hid : id ∈ seen
      · simp only [deepClone, if_pos hid]
        exact ⟨fun i hi => hi, fun i hi => Or.inl hi, Nat.le_refl f,
          fun i hi => absurd hi (by simp [idsOf])⟩
      · simp only [deepClone, if_neg hid]
        refine ⟨fun i hi => List.mem_cons_of_mem id hi, fun i hi => ?_,
          Nat.le_succ f, fun i hi => ?_⟩
        · rcases List.mem_cons.mp hi with h | h
          · exact Or.inr (by simp [idsOf, h])
          · exact Or.inl h
        · simp only [idsOf, List.mem_singleton] at hi
          omega
  | warr id l =>
      by_cases hid : id ∈ seen
      · simp only [deepClone, if_pos hid]
        exact ⟨fun i hi => hi, fun i hi => Or.inl hi, Nat.le_refl f,
          fun i hi => absurd hi (by simp [idsOf])⟩
      · simp only [deepClone, if_neg hid]
        have hl := cloneList_frame l (id :: seen) f
        refine ⟨fun i hi => hl.1 i (List.mem_cons_of_mem id hi), fun i hi => ?_,
          ?_, fun i hi => ?_⟩
        · rcases hl.2.1 i hi with h | h
          · rcases List.mem_cons.mp h with h' | h'
            · exact Or.inr (by simp [idsOf, h'])
            · exact Or.inl h'
          · exact Or.inr (by simp [idsOf, h])
        · exact Nat.le_trans hl.2.2.1 (Nat.le_succ _)
        · simp only [idsOf, List.mem_cons] at hi
          rcases hi with h | h
          · subst h
            exact ⟨hl.2.2.1, Nat.lt_succ_self _⟩
          · have hb := hl.2.2.2 i h
            omega
  | wobj id fl =>
      by_cases hid : id ∈ seen
      · simp only [deepClone, if_pos hid]
        exact ⟨fun i hi => hi, fun i hi => Or.inl hi, Nat.le_refl f,
          fun i hi => absurd hi (by simp [idsOf])⟩
      · simp only [deepClone, if_neg hid]
        have hl := cloneFields_frame fl (id :: seen) f
        refine ⟨fun i hi => hl.1 i (List.mem_cons_of_mem id hi), fun i hi => ?_,
          ?_, fun i hi => ?_⟩
        · rcases hl.2.1 i hi with h | h
          · rcases List.mem_cons.mp h with h' | h'
            · exact Or.inr (by simp [idsOf, h'])
            · exact Or.inl h'
          · exact Or.inr (by simp [idsOf, h])
        · exact Nat.le_trans hl.2.2.1 (Nat.le_succ _)
        · simp only [idsOf, List.mem_cons] at hi
          rcases hi with h | h
          · subst h
            exact ⟨hl.2.2.1, Nat.lt_succ_self _⟩
          · have hb := hl.2.2.2 i h
            omega

theorem cloneList_frame (l : List WVal) (seen : List Nat) (f : Nat) :
    (∀ i ∈ seen, i ∈ (deepCloneList l seen f).2.1) ∧
    (∀ i ∈ (deepCloneList l seen f).2.1, i ∈ seen ∨ i ∈ idsOfList l) ∧
    f ≤ (deepCloneList l seen f).2.2 ∧
    (∀ i ∈ idsOfList (deepCloneList l seen f).1,
      f ≤ i ∧ i < (deepCloneList l seen f).2.2) := by
  cases l with
  | nil =>
      simp only [deepCloneList]
      exact ⟨fun i hi => hi, fun i hi => Or.inl hi, Nat.le_refl f,
        fun i hi => absurd hi (by simp [idsOfList])⟩
  | cons x xs =>
      simp only [deepCloneList]
      have hx := clone_frame x seen f
      have hxs := cloneList_frame xs (deepClone x seen f).2.1 (deepClone x seen f).2.2
      refine ⟨fun i hi => hxs.1 i (hx.1 i hi), fun i hi => ?_,
        Nat.le_trans hx.2.2.1 hxs.2.2.1, fun i hi => ?_⟩
      · rcases hxs.2.1 i hi with h | h
        · rcases hx.2.1 i h with h' | h'
          · exact Or.inl h'
          · exact Or.inr (by simp [idsOfList, h'])
        · exact Or.inr (by simp [idsOfList, h])
      · simp only [idsOfList, List.mem_append] at hi
        rcases hi with h | h
        · have h1 := hx.2.2.2 i h
          exact ⟨h1.1, Nat.lt_of_lt_of_le h1.2 hxs.2.2.1⟩
        · have h1 := hxs.2.2.2 i h
          exact ⟨Nat.le_trans hx.2.2.1 h1.1, h1.2⟩

theorem cloneFields_frame (l : List (String × WVal)) (seen : List Nat) (f : Nat) :
    (∀ i ∈ seen, i ∈ (deepCloneFields l seen f).2.1) ∧
    (∀ i ∈ (deepCloneFields l seen f).2.1, i ∈ seen ∨ i ∈ idsOfFields l) ∧
    f ≤ (deepCloneFields l seen f).2.2 ∧
    (∀ i ∈ idsOfFields (deepCloneFields l seen f).1,
      f ≤ i ∧ i < (deepCloneFields l seen f).2.2) := by
  cases l with
  | nil =>
      simp only [deepCloneFields]
      exact ⟨fun i hi => hi, fun i hi => Or.inl hi, Nat.le_refl f,
        fun i hi => absurd hi (by simp [idsOfFields])⟩
  | cons p xs =>
      obtain ⟨k, x⟩ := p
      simp only [deepCloneFields]
      have hx := clone_frame x seen f
      have hxs := cloneFields_frame xs (deepClone x seen f).2.1 (deepClone x seen f).2.2
      refine ⟨fun i hi => hxs.1 i (hx.1 i hi), fun i hi => ?_,
        Nat.le_trans hx.2.2.1 hxs.2.2.1, fun i hi => ?_⟩
      · rcases hxs.2.1 i hi with h | h
        · rcases hx.2.1 i h with h' | h'
          · exact Or.inl h'
          · exact Or.inr (by simp [idsOfFields, h'])
        · exact Or.inr (by simp [idsOfFields, h])
      · simp only [idsOfFields, List.mem_append] at hi
        rcases hi with h | h
        · have h1 := hx.2.2.2 i h
          exact ⟨h1.1, Nat.lt_of_lt_of_le h1.2 hxs.2.2.1⟩
        · have h1 := hxs.2.2.2 i h
          exact ⟨Nat.le_trans hx.2.2.1 h1.1, h1.2⟩

end

mutual

theorem clone_deepEq (v : WVal) (seen : List Nat) (f : Nat)
    (hnd : (idsOf v).Nodup) (hdisj : ∀ i ∈ idsOf v, i ∉ seen) :
    deepEq (deepClone v seen f).1 v = true := by
  cases v with
  | wnull => simp [deepClone, deepEq]
  | wundef => simp [deepClone, deepEq]
  | wnum n => simp [deepClone, deepEq]
  | wstr s => simp [deepClone, deepEq]
  | wdate id t =>
      have hid : id ∉ seen := hdisj id (by simp [idsOf])
      simp [deepClone, if_neg hid, deepEq]
  | warr id l =>
      have hid : id ∉ seen := hdisj id (by simp [idsOf])
      simp only [deepClone, if_neg hid, deepEq]
      have hnd' := List.nodup_cons.mp (by simpa [idsOf] using hnd)
      apply cloneList_deepEq l (id :: seen) f hnd'.2
      intro i hi hmem
      rcases List.mem_cons.mp hmem with h | h
      · exact hnd'.1 (h ▸ hi)
      · exact hdisj i (by simp [idsOf, hi]) h
  | wobj id fl =>
      have hid : id ∉ seen := hdisj id (by simp [idsOf])
      simp only [deepClone, if_neg hid, deepEq]
      have hnd' := List.nodup_cons.mp (by simpa [idsOf] using hnd)
      apply cloneFields_deepEq fl (id :: seen) f hnd'.2
      intro i hi hmem
      rcases List.mem_cons.mp hmem with h | h
      · exact hnd'.1 (h ▸ hi)
      · exact hdisj i (by simp [idsOf, hi]) h

theorem cloneList_deepEq (l : List WVal) (seen : List Nat) (f : Nat)
    (hnd : (idsOfList l).Nodup) (hdisj : ∀ i ∈ idsOfList l, i ∉ seen) :
    deepEqList (deepCloneList l seen f).1 l = true := by
  cases l with
  | nil => simp [deepCloneList, deepEqList]
  | cons x xs =>
      simp only [deepCloneList, deepEqList, Bool.and_eq_true]
      have hnd' := List.nodup_append.mp (by simpa [idsOfList] using hnd)
      constructor
      · exact clone_deepEq x seen f hnd'.1
          (fun i hi => hdisj i (by simp [idsOfList, hi]))
      · apply cloneList_deepEq xs (deepClone x seen f).2.1 (deepClone x seen f).2.2
          hnd'.2.1
        intro i hi hmem
        rcases (clone_frame x seen f).2.1 i hmem with h | h
        · exact hdisj i (by simp [idsOfList, hi]) h
        · exact hnd'.2.2 h hi

theorem cloneFields_deepEq (l : List (String × WVal)) (seen : List Nat) (f : Nat)
    (hnd : (idsOfFields l).Nodup) (hdisj : ∀ i ∈ idsOfFields l, i ∉ seen) :
    deepEqFields (deepCloneFields l seen f).1 l = true := by
  cases l with
  | nil => simp [deepCloneFields, deepEqFields]
  | cons p xs =>
      obtain ⟨k, x⟩ := p
      simp only [deepCloneFields, deepEqFields, Bool.and_eq_true, beq_self_eq_true,
        true_and]
      have hnd' := List.nodup_append.mp (by simpa [idsOfFields] using hnd)
      constructor
      · exact clone_deepEq x seen f hnd'.1
          (fun i hi => hdisj i (by simp [idsOfFields, hi]))
      · apply cloneFields_deepEq xs (deepClone x seen f).2.1 (deepClone x seen f).2.2
          hnd'.2.1
        intro i hi hmem
        rcases (clone_frame x seen f).2.1 i hmem with h | h
        · exact hdisj i (by simp [idsOfFields, hi]) h
        · exact hnd'.2.2 h hi

end

theorem refId_mem (v : WVal) (i : Nat) (h : refId v = some i) : i ∈ idsOf v := by
  cases v <;> simp [refId] at h <;> simp [idsOf, h]

/-- Claim C8: for `watch(objRef, cb)` whose source value is `v0` on the
first (initial, callback-less) run, replacing the ref's value with a
new object `v1` makes the next run invoke `cb` with new value `v1` and
old value the deep-clone snapshot taken at the end of the previous run;
that snapshot is deep-equal to the pre-mutation value `v0` and not
reference-equal to the new value `v1`.  Hypotheses: `v0` has no shared
references (distinct identity numbers), `v1` is an object, and `v1` is
a different allocation from the snapshot (its identities lie outside
the snapshot's freshly allocated range). -/
theorem watch_old_new_distinct (v0 v1 : WVal) (n : Nat)
    (hnd : (idsOf v0).Nodup)
    (hobj : (refId v1).isSome = true)
    (hfree : ∀ i ∈ idsOf v1, i < n ∨ (deepClone v0 [] n).2.2 ≤ i) :
    (watchRun false (mkWatcher n) v0).2 = none ∧
    (watchRun false (watchRun false (mkWatcher n) v0).1 v1).2 =
      some (v1, (watchRun false (mkWatcher n) v0).1.oldValue) ∧
    deepEq (watchRun false (mkWatcher n) v0).1.oldValue v0 = true ∧
    refEq (watchRun false (mkWatcher n) v0).1.oldValue v1 = false := by
  refine ⟨rfl, rfl, ?_, ?_⟩
  · exact clone_deepEq v0 [] n hnd (fun i _ => by simp)
  · obtain ⟨j, hj⟩ := Option.isSome_iff_exists.mp hobj
    have hjmem := refId_mem v1 j hj
    show refEq (deepClone v0 [] n).1 v1 = false
    cases hcl : refId (deepClone v0 [] n).1 with
    | none => simp [refEq, hcl, hj]
    | some i =>
        have himem := refId_mem _ i hcl
        have hbound := (clone_frame v0 [] n).2.2.2 i himem
        have hne : i ≠ j := by
          rcases hfree j hjmem with hlt | hge <;> omega
        simp [refEq, hcl, hj, hne]

/-- Witness for claim C8: the ref initially holds the object with
identity `0` and field `a = 1`; it is replaced by the fresh object with
identity `1` and field `a = 2`; the world allocation counter starts at
`10`. -/
theorem watch_old_new_distinct_witness :
    (idsOf (WVal.wobj 0 [(("a" : String), WVal.wnum 1)])).Nodup ∧
    (refId (WVal.wobj 1 [(("a" : String), WVal.wnum 2)])).isSome = true ∧
    (∀ i ∈ idsOf (WVal.wobj 1 [(("a" : String), WVal.wnum 2)]),
      i < 10 ∨ (deepClone (WVal.wobj 0 [(("a" : String), WVal.wnum 1)]) [] 10).2.2 ≤ i) ∧
    ((watchRun false (mkWatcher 10) (WVal.wobj 0 [(("a" : String), WVal.wnum 1)])).2 =
        none ∧
      (watchRun false
          (watchRun false (mkWatcher 10) (WVal.wobj 0 [(("a" : String), WVal.wnum 1)])).1
          (WVal.wobj 1 [(("a" : String), WVal.wnum 2)])).2 =
        some (WVal.wobj 1 [(("a" : String), WVal.wnum 2)],
          (watchRun false (mkWatcher 10)
              (WVal.wobj 0 [(("a" : String), WVal.wnum 1)])).1.oldValue) ∧
      deepEq
          (watchRun false (mkWatcher 10)
              (WVal.wobj 0 [(("a" : String), WVal.wnum 1)])).1.oldValue
          (WVal.wobj 0 [(("a" : String), WVal.wnum 1)]) = true ∧
      refEq
          (watchRun false (mkWatcher 10)
              (WVal.wobj 0 [(("a" : String), WVal.wnum 1)])).1.oldValue
          (WVal.wobj 1 [(("a" : String), WVal.wnum 2)]) = false) := by
  have hnd : (idsOf (WVal.wobj 0 [(("a" : String), WVal.wnum 1)])).Nodup := by
    simp [idsOf, idsOfFields]
  have hobj : (refId (WVal.wobj 1 [(("a" : String), WVal.wnum 2)])).isSome = true := rfl
  have hfree : ∀ i ∈ idsOf (WVal.wobj 1 [(("a" : String), WVal.wnum 2)]),
      i < 10 ∨ (deepClone (WVal.wobj 0 [(("a" : String), WVal.wnum 1)]) [] 10).2.2 ≤ i := by
    intro i hi
    simp [idsOf, idsOfFields] at hi
    subst hi
    exact Or.inl (by omega)
  exact ⟨hnd, hobj, hfree, watch_old_new_distinct _ _ 10 hnd hobj hfree⟩

end Watch

end ReactiveJS
